import Mathlib

/-!
# Verification of the vdflex KeyValues serializer

A shallow embedding of the serialization side of the `vdflex` crate
(`src/ser/formatter.rs`, `src/ser/serializer.rs`, `src/error.rs`), together
with a parser modelled from the specification (the crate's deserializer,
`src/de.rs`, is unimplemented).  Text is represented as `List Char`; the
in-memory writer (`Vec<u8>` behind `std::io::Write`) is the `out` field of
the serializer state, and `write_all` is modelled as appending, so the
`Io` error branch of every formatter call is unreachable and elided.
-/

/-- Text, as the serializer writes it: a list of characters. -/
abbrev Str := List Char

/-- `BraceStyle` from `formatter.rs`: placement of curly brackets. -/
inductive BraceStyle where
  | allman
  | kAndR
  deriving DecidableEq, Repr

/-- `Quoting` from `formatter.rs`: when strings get surrounding quotes. -/
inductive Quoting where
  | always
  | whenRequired
  deriving DecidableEq, Repr

/-- `FormatOpts` from `formatter.rs`. -/
structure FormatOpts where
  indent : Str
  separator : Str
  braceStyle : BraceStyle
  quoteKeys : Quoting
  quoteMacroKeys : Quoting
  quoteValues : Quoting
  deriving DecidableEq, Repr

/-- `FormatOpts::default()`: four-space indent, single-space separator,
Allman braces, always quote. -/
def FormatOpts.default : FormatOpts :=
  { indent := [' ', ' ', ' ', ' ']
    separator := [' ']
    braceStyle := .allman
    quoteKeys := .always
    quoteMacroKeys := .always
    quoteValues := .always }

/-- `ElementKind` from `formatter.rs`: what the formatter is currently
writing. -/
inductive ElementKind where
  | object
  | keyValue
  | key
  | value
  deriving DecidableEq, Repr

/-- Rust's `char::is_whitespace`: the Unicode `White_Space` property,
spelled out character by character. -/
def rustIsWhitespace (c : Char) : Bool :=
  c.toNat = 0x09 || c.toNat = 0x0a || c.toNat = 0x0b || c.toNat = 0x0c ||
  c.toNat = 0x0d || c.toNat = 0x20 || c.toNat = 0x85 || c.toNat = 0xa0 ||
  c.toNat = 0x1680 || (0x2000 <= c.toNat && c.toNat <= 0x200a) ||
  c.toNat = 0x2028 || c.toNat = 0x2029 || c.toNat = 0x202f ||
  c.toNat = 0x205f || c.toNat = 0x3000

/-- The four characters `write_string_element` escapes: tab, newline,
backslash, double quote (the pattern of its `match_indices` call). -/
def isEscapeChar (c : Char) : Bool :=
  c = '\t' || c = '\n' || c = '\\' || c = '\"'

/-- The two-character escape sequence `write_string_element` emits for an
escape character. -/
def escSeq (c : Char) : Str :=
  if c = '\t' then ['\\', 't']
  else if c = '\n' then ['\\', 'n']
  else if c = '\\' then ['\\', '\\']
  else ['\\', '\"']

/-- One `write_all` call issued by the fragment/escape loop of
`write_string_element`: either a raw fragment or one escape sequence. -/
inductive WriteCall where
  | frag (f : Str)
  | esc (c : Char)
  deriving DecidableEq, Repr

/-- The text a single `write_all` call of the escape loop sends to the
writer. -/
def renderWrite : WriteCall → Str
  | .frag f => f
  | .esc c => escSeq c

/-- The sequence of `write_all` calls issued by the loop of
`write_string_element` (`formatter.rs` lines 197-221): raw fragments are
the maximal runs between escape characters and are only written when
non-empty; each escape character is written as one escape sequence.  The
source iterates `match_indices`; this recursion grows the leading fragment
character by character, producing the same call sequence. -/
def escapeWrites : Str → List WriteCall
  | [] => []
  | c :: rest =>
    if isEscapeChar c then .esc c :: escapeWrites rest
    else
      match escapeWrites rest with
      | .frag f :: ws => .frag (c :: f) :: ws
      | ws => .frag [c] :: ws

/-- `needQuotes` decision of `write_string_element` (`formatter.rs` lines
184-191): under `Always` quote unconditionally; under `WhenRequired` quote
when the string starts with `[` or contains a brace, a quote, or
whitespace. -/
def needQuotes (q : Quoting) (s : Str) : Bool :=
  match q with
  | .always => true
  | .whenRequired =>
    (match s with
     | [] => false
     | c :: _ => c = '[') ||
    s.any fun c => c = '\x7b' || c = '\x7d' || c = '\"' || rustIsWhitespace c

/-- The serializer state: `out` is the writer's accumulated bytes,
`elements`/`indentLevel` are the `PrettyFormatter` fields (list head =
stack top), `keyStack` is `Serializer::key_stack` (head = top). -/
structure SerState where
  out : Str
  elements : List ElementKind
  indentLevel : Int
  keyStack : List Str
  deriving DecidableEq, Repr

/-- Append text to the writer (`write_all`). -/
def emit (s : SerState) (t : Str) : SerState :=
  { s with out := s.out ++ t }

/-- `PrettyFormatter::push_element`: push, and indent one more level for an
object. -/
def pushElement (s : SerState) (k : ElementKind) : SerState :=
  { s with
    elements := k :: s.elements
    indentLevel := if k = .object then s.indentLevel + 1 else s.indentLevel }

/-- `PrettyFormatter::pop_element`: pop, and dedent for an object.  The
source panics on an empty stack; that branch is unreachable in every run
below and is modelled as a no-op returning `.object`. -/
def popElement (s : SerState) : ElementKind × SerState :=
  match s.elements with
  | [] => (.object, s)
  | e :: rest =>
    (e, { s with
          elements := rest
          indentLevel := if e = .object then s.indentLevel - 1 else s.indentLevel })

/-- `PrettyFormatter::write_indent`: the indent string once per level
(no output while the level is negative). -/
def writeIndent (opts : FormatOpts) (s : SerState) : SerState :=
  emit s (List.flatten (List.replicate s.indentLevel.toNat opts.indent))

/-- `PrettyFormatter::write_string_element`: opening quote when needed, the
fragment/escape loop, closing quote. -/
def writeStringElement (s : SerState) (str : Str) (q : Quoting) : SerState :=
  let quotes : Str := if needQuotes q str then ['\"'] else []
  emit s (quotes ++ (List.flatten ((escapeWrites str).map renderWrite)) ++ quotes)

/-- `PrettyFormatter::begin_object`: the root object prints nothing; a
nested object prints its brace per the brace style. -/
def beginObject (opts : FormatOpts) (s : SerState) : SerState :=
  if s.elements = [] then pushElement s .object
  else
    match opts.braceStyle with
    | .allman =>
      emit (pushElement (emit (writeIndent opts (emit s ['\n'])) ['\x7b']) .object) ['\n']
    | .kAndR =>
      emit (pushElement (emit s [' ', '\x7b']) .object) ['\n']

/-- `PrettyFormatter::end_object`: pop; print the closing brace unless the
popped object was the root. -/
def endObject (opts : FormatOpts) (s : SerState) : SerState :=
  let s := (popElement s).2
  if s.elements = [] then s else emit (writeIndent opts s) ['\x7d']

/-- `PrettyFormatter::begin_key`: push `KeyValue` then `Key`, write the
indent. -/
def beginKey (opts : FormatOpts) (s : SerState) : SerState :=
  writeIndent opts (pushElement (pushElement s .keyValue) .key)

/-- `PrettyFormatter::end_key`: pop the `Key` element. -/
def endKey (s : SerState) : SerState :=
  (popElement s).2

/-- `PrettyFormatter::begin_value`: push `Value`; the separator is written
later, by `write_string`. -/
def beginValue (s : SerState) : SerState :=
  pushElement s .value

/-- `PrettyFormatter::end_value`: pop `Value` and `KeyValue`, write the line
break. -/
def endValue (s : SerState) : SerState :=
  emit (popElement (popElement s).2).2 ['\n']

/-- `PrettyFormatter::write_string`: pick the quoting policy from the top
element (macro keys `#include`/`#base` get the macro policy), write the
separator before a value, then the string element. -/
def writeString (opts : FormatOpts) (str : Str) (s : SerState) : SerState :=
  let q : Quoting :=
    match s.elements with
    | .key :: _ =>
      if str = "#include".data || str = "#base".data then opts.quoteMacroKeys
      else opts.quoteKeys
    | .value :: _ => opts.quoteValues
    | _ => opts.quoteValues
  let s :=
    if s.elements.head? = some .value then emit s opts.separator else s
  writeStringElement s str q

/-- `Serializer::new(writer, PrettyFormatter::with_opts(opts))`: empty
writer, empty element stack, indent level `-1`, empty key stack. -/
def initState : SerState :=
  { out := [], elements := [], indentLevel := -1, keyStack := [] }

example : needQuotes .whenRequired "ab c".data = true := by decide
example : needQuotes .whenRequired "simple".data = false := by decide
example : needQuotes .whenRequired [] = false := by decide
example : List.flatten ((escapeWrites "a\tb".data).map renderWrite) = "a\\tb".data := by decide

/-- A floating-point input, abstracted to what the serializer inspects:
its `is_finite()` flag and the decimal text `to_string()` renders
(`f32`/`f64` arithmetic itself plays no role in the serializer). -/
structure FloatRepr where
  finite : Bool
  repr : Str
  deriving DecidableEq, Repr

/-- The serialization-side variants of `Error` from `error.rs`.
`Io` is omitted: the in-memory writer cannot fail. -/
inductive Error where
  | unsupportedType (d : Str)
  | multipleRootKeys
  | rootLevelSequence
  | nestedSequence
  | nonFiniteFloat (f : FloatRepr)
  | keyMustBeAString (d : Str)
  | serde (d : Str)
  deriving DecidableEq, Repr

mutual
/-- The serde data model, as far as this serializer consumes it: one
constructor per `serde::Serializer` entry point (i8..u64 collapse to
`sint`, i128/u128 to `sbigint` with the description the source reports).
Lists are spelled as the mutual types `SList`, `SPairs`, `SFields` so the
serializer below is structurally recursive. -/
inductive SValue : Type where
  | sbool : Bool → SValue
  | sint : Int → SValue
  | sbigint : Str → SValue
  | sfloat : FloatRepr → SValue
  | sstr : Str → SValue
  | schar : Char → SValue
  | sbytes : SValue
  | snone : SValue
  | ssome : SValue → SValue
  | sunit : SValue
  | sunitStruct : SValue
  | sunitVariant : Str → SValue
  | snewtypeStruct : SValue → SValue
  | snewtypeVariant : Str → SValue → SValue
  | sseq : SList → SValue
  | stuple : SList → SValue
  | stupleVariant : Str → SList → SValue
  | smap : SPairs → SValue
  | sstruct : SFields → SValue
  | sstructVariant : Str → SFields → SValue
  deriving DecidableEq, Repr

inductive SList : Type where
  | nil : SList
  | cons : SValue → SList → SList
  deriving DecidableEq, Repr

inductive SPairs : Type where
  | nil : SPairs
  | cons : SValue → SValue → SPairs → SPairs
  deriving DecidableEq, Repr

inductive SFields : Type where
  | nil : SFields
  | cons : Str → SValue → SFields → SFields
  deriving DecidableEq, Repr
end

/-- Decimal rendering of an integer, Rust's `to_string` for i8..u64. -/
def intToStr (n : Int) : Str := (toString n).data

/-- `Serializer::key_stack.push(k)`. -/
def pushKey (k : Str) (s : SerState) : SerState :=
  { s with keyStack := k :: s.keyStack }

/-- `MapKeySerializer::serialize_str`: push the rendered key text onto the
key stack, `begin_key`, write the text through the main serializer's
`serialize_str`, `end_key`. -/
def mapKeyStr (opts : FormatOpts) (str : Str) (s : SerState) : SerState :=
  endKey (writeString opts str (beginKey opts (pushKey str s)))

/-- `Serializer::key_stack.pop()`. -/
def popKeyStack (s : SerState) : SerState :=
  { s with keyStack := s.keyStack.tail }

mutual
/-- The `serde::Serializer` impl for `&mut Serializer` in `serializer.rs`:
one case per entry point, in source order.  `serialize_str` is
`Formatter::write_string`; scalars go through it; `serialize_none` (and
unit/unit structs, which delegate to it) writes the empty string. -/
def serValue (opts : FormatOpts) : SValue → SerState → Except Error SerState
  | .sbool b, s => .ok (writeString opts (if b then "1".data else "0".data) s)
  | .sint n, s => .ok (writeString opts (intToStr n) s)
  | .sbigint d, _ => .error (.unsupportedType d)
  | .sfloat f, s =>
    if f.finite then .ok (writeString opts f.repr s)
    else .error (.nonFiniteFloat f)
  | .sstr str, s => .ok (writeString opts str s)
  | .schar c, s => .ok (writeString opts [c] s)
  | .sbytes, _ => .error (.unsupportedType "bytes".data)
  | .snone, s => .ok (writeString opts [] s)
  | .ssome v, s => serValue opts v s
  | .sunit, s => .ok (writeString opts [] s)
  | .sunitStruct, s => .ok (writeString opts [] s)
  | .sunitVariant name, s => .ok (writeString opts name s)
  | .snewtypeStruct v, s => serValue opts v s
  | .snewtypeVariant name v, s => do
    let s := beginObject opts s
    let s := pushKey name s
    let s := endKey (writeString opts name (beginKey opts s))
    let s := beginValue s
    let s ← serValue opts v s
    let s := popKeyStack (endValue s)
    .ok (endObject opts s)
  | .sseq xs, s => serSeqElems opts xs s
  | .stuple xs, s => serSeqElems opts xs s
  | .stupleVariant name xs, s => do
    let s := beginObject opts (pushKey name s)
    let s ← serSeqElems opts xs s
    .ok (popKeyStack (endObject opts s))
  | .smap entries, s => do
    let s ← serMapEntries opts entries (beginObject opts s)
    .ok (endObject opts s)
  | .sstruct fields, s => do
    let s ← serStructFields opts fields (beginObject opts s)
    .ok (endObject opts s)
  | .sstructVariant name fields, s => do
    let s := beginObject opts s
    let s := pushKey name s
    let s := endKey (writeString opts name (beginKey opts s))
    let s := beginObject opts (beginValue s)
    let s ← serStructFields opts fields s
    let s := popKeyStack (endValue (endObject opts s))
    .ok (endObject opts s)

/-- `SerializeSeq::serialize_element`, iterated: each element looks up
`key_stack.last()` (`RootLevelSequence` when the stack is empty), writes
that key as a fresh key, then the element as its value.  `end` does
nothing. -/
def serSeqElems (opts : FormatOpts) : SList → SerState → Except Error SerState
  | .nil, s => .ok s
  | .cons x xs, s =>
    match s.keyStack with
    | [] => .error .rootLevelSequence
    | key :: _ => do
      let s := endKey (writeString opts key (beginKey opts s))
      let s := beginValue s
      let s ← serValue opts x s
      serSeqElems opts xs (endValue s)

/-- `SerializeMap`: `serialize_key` via `MapKeySerializer`, then
`serialize_value` (`begin_value`, the value, `end_value`, pop the key). -/
def serMapEntries (opts : FormatOpts) : SPairs → SerState → Except Error SerState
  | .nil, s => .ok s
  | .cons k v rest, s => do
    let s ← serMapKey opts k s
    let s := beginValue s
    let s ← serValue opts v s
    serMapEntries opts rest (popKeyStack (endValue s))

/-- The `serde::Serializer` impl for `MapKeySerializer`: string-able
scalars funnel into `mapKeyStr`; every other shape is rejected with the
error the source constructs (note the source reports `"bytes"` for
`serialize_none` as well). -/
def serMapKey (opts : FormatOpts) : SValue → SerState → Except Error SerState
  | .sbool b, s => .ok (mapKeyStr opts (if b then "1".data else "0".data) s)
  | .sint n, s => .ok (mapKeyStr opts (intToStr n) s)
  | .sbigint d, _ => .error (.unsupportedType d)
  | .sfloat f, s =>
    if !f.finite then .error (.nonFiniteFloat f)
    else .ok (mapKeyStr opts f.repr s)
  | .sstr str, s => .ok (mapKeyStr opts str s)
  | .schar c, s => .ok (mapKeyStr opts [c] s)
  | .sbytes, _ => .error (.keyMustBeAString "bytes".data)
  | .snone, _ => .error (.keyMustBeAString "bytes".data)
  | .ssome v, s => serMapKey opts v s
  | .sunit, _ => .error (.keyMustBeAString "unit".data)
  | .sunitStruct, _ => .error (.keyMustBeAString "unit struct".data)
  | .sunitVariant _, _ => .error (.keyMustBeAString "unit variant".data)
  | .snewtypeStruct v, s => serMapKey opts v s
  | .snewtypeVariant _ _, _ => .error (.keyMustBeAString "newtype variant".data)
  | .sseq _, _ => .error (.keyMustBeAString "sequence".data)
  | .stuple _, _ => .error (.keyMustBeAString "tuple".data)
  | .stupleVariant _ _, _ => .error (.keyMustBeAString "tuple variant".data)
  | .smap _, _ => .error (.keyMustBeAString "map".data)
  | .sstruct _, _ => .error (.keyMustBeAString "struct".data)
  | .sstructVariant _ _, _ => .error (.keyMustBeAString "struct variant".data)

/-- `SerializeStruct::serialize_field`, iterated: push the field key, write
it, write the value, pop.  `end` is handled by the caller. -/
def serStructFields (opts : FormatOpts) : SFields → SerState → Except Error SerState
  | .nil, s => .ok s
  | .cons key v rest, s => do
    let s := endKey (writeString opts key (beginKey opts (pushKey key s)))
    let s := beginValue s
    let s ← serValue opts v s
    serStructFields opts rest (popKeyStack (endValue s))
end

/-- Serializing a value at document root: a fresh serializer over an empty
writer, as the value-level entry points of the crate do (`error.rs` documents
`to_string` as handling values "directly, with no enclosing object"). -/
def toStringVdf (opts : FormatOpts) (v : SValue) : Except Error Str :=
  (serValue opts v initState).map SerState.out

/-- Modelled from the spec: a parsed KeyValues value (spec section 3):
text, or an object whose entries are an ordered list of key/value pairs
with repeated keys kept in order.  The repository's parser is missing
(`src/de.rs` is `todo!()`). -/
inductive PValue where
  | text : Str → PValue
  | obj : List (Str × PValue) → PValue

/-- Modelled from the spec: a token of the grammar of spec section 4.3 —
a brace or a string. -/
inductive Token where
  | openBrace
  | closeBrace
  | str (s : Str)
  deriving DecidableEq, Repr

/-- A character that ends an unquoted string run: whitespace, a brace, or
a quote (spec section 4.3). -/
def unquotedEnd (c : Char) : Bool :=
  rustIsWhitespace c || c = '\x7b' || c = '\x7d' || c = '\"'

/-- Modelled from the spec: read a double-quoted string body with the four
escape sequences, returning content and remaining input, or a syntax
error for an unterminated string or unknown escape.  The `Nat` argument is
recursion fuel, at least the input length. -/
def readQuotedF : Nat → Str → Except Str (Str × Str)
  | 0, _ => .error "fuel exhausted".data
  | _ + 1, [] => .error "unterminated string".data
  | fuel + 1, c :: rest =>
    if c = '\"' then .ok ([], rest)
    else if c = '\\' then
      match rest with
      | [] => .error "unterminated string".data
      | e :: rest2 =>
        if e = 't' then (readQuotedF fuel rest2).map fun p => ('\t' :: p.1, p.2)
        else if e = 'n' then (readQuotedF fuel rest2).map fun p => ('\n' :: p.1, p.2)
        else if e = '\\' then (readQuotedF fuel rest2).map fun p => ('\\' :: p.1, p.2)
        else if e = '\"' then (readQuotedF fuel rest2).map fun p => ('\"' :: p.1, p.2)
        else .error "invalid escape sequence".data
    else (readQuotedF fuel rest).map fun p => (c :: p.1, p.2)

/-- Modelled from the spec: the tokenizer of spec section 4.3 — skip
whitespace, discard `//` line comments, emit braces, quoted strings and
maximal unquoted runs.  Conditional tags do not occur in the inputs below
and are not modelled.  The `Nat` argument is recursion fuel, at least the
input length plus one. -/
def tokenizeF : Nat → Str → Except Str (List Token)
  | 0, _ => .error "fuel exhausted".data
  | _ + 1, [] => .ok []
  | fuel + 1, c :: rest =>
    if rustIsWhitespace c then tokenizeF fuel rest
    else if c = '/' && rest.head? = some '/' then
      tokenizeF fuel (rest.dropWhile fun d => d ≠ '\n')
    else if c = '\x7b' then (tokenizeF fuel rest).map (Token.openBrace :: ·)
    else if c = '\x7d' then (tokenizeF fuel rest).map (Token.closeBrace :: ·)
    else if c = '\"' then
      match readQuotedF (fuel + 1) rest with
      | .error e => .error e
      | .ok p => (tokenizeF fuel p.2).map (Token.str p.1 :: ·)
    else
      (tokenizeF fuel ((c :: rest).dropWhile fun d => !unquotedEnd d)).map
        (Token.str ((c :: rest).takeWhile fun d => !unquotedEnd d) :: ·)

/-- Modelled from the spec: tokenize a whole input. -/
def tokenize (s : Str) : Except Str (List Token) :=
  tokenizeF (s.length + 1) s

/-- Modelled from the spec: the recursive-descent object reader of spec
section 4.3 — repeatedly read a key token, then either a nested object
(after `\x7b`) or a string value; an object closes on `\x7d`, or on
end-of-input when it is the root.  Returns the entries in document order
with repeated keys appended, plus the remaining tokens.  The `Nat`
argument is recursion fuel, at least the token count plus one. -/
def parsePairsF : Nat → List Token → Bool → Except Str (List (Str × PValue) × List Token)
  | 0, _, _ => .error "fuel exhausted".data
  | _ + 1, [], root =>
    if root then .ok ([], []) else .error "unterminated object".data
  | _ + 1, Token.closeBrace :: rest, root =>
    if root then .error "unmatched close brace".data else .ok ([], rest)
  | _ + 1, Token.openBrace :: _, _ => .error "expected key".data
  | fuel + 1, Token.str k :: rest, root =>
    match rest with
    | Token.openBrace :: rest2 => do
      let inner ← parsePairsF fuel rest2 false
      let more ← parsePairsF fuel inner.2 root
      .ok ((k, PValue.obj inner.1) :: more.1, more.2)
    | Token.str v :: rest2 => do
      let more ← parsePairsF fuel rest2 root
      .ok ((k, PValue.text v) :: more.1, more.2)
    | _ => .error "missing value after key".data

/-- Modelled from the spec: parse a flattened document (the root object's
entries are the document's entries, spec section 3). -/
def parseFlat (s : Str) : Except Str (List (Str × PValue)) := do
  let toks ← tokenize s
  let p ← parsePairsF (toks.length + 1) toks true
  .ok p.1



/-- A state transformer only appends to the writer, and what it appends
and how it changes the rest of the state do not depend on what the writer
already holds: running it with the writer emptied yields the same state
with the appended text isolated. -/
def PureLocal (f : SerState → SerState) : Prop :=
  ∀ (o : Str) (el : List ElementKind) (il : Int) (ks : List Str),
    f ⟨o, el, il, ks⟩ =
      ⟨o ++ (f ⟨[], el, il, ks⟩).out, (f ⟨[], el, il, ks⟩).elements,
       (f ⟨[], el, il, ks⟩).indentLevel, (f ⟨[], el, il, ks⟩).keyStack⟩

/-- The same locality for a fallible step: the error, the appended text
and the non-writer state are independent of the writer's prior
contents. -/
def ExceptLocal (F : SerState → Except Error SerState) : Prop :=
  ∀ (o : Str) (el : List ElementKind) (il : Int) (ks : List Str),
    F ⟨o, el, il, ks⟩ =
      (F ⟨[], el, il, ks⟩).map fun t =>
        ⟨o ++ t.out, t.elements, t.indentLevel, t.keyStack⟩

/-- The per-character escaping the spec describes: tab, newline, backslash
and the quote character become their two-character escape; every other
character passes through unchanged.  Stated from the spec's words, to be
compared with the `escapeWrites` call sequence translated from the
source. -/
def escapeCharSpec (c : Char) : Str :=
  if isEscapeChar c then escSeq c else [c]

/-- Whether a `write_all` call of the escape loop is a raw fragment. -/
def WriteCall.isFrag : WriteCall → Bool
  | .frag _ => true
  | .esc _ => false

/-- A well-formed `write_all` call of the escape loop: fragments are
non-empty and contain no escape character; escape calls carry an escape
character. -/
def goodCall : WriteCall → Prop
  | .frag f => f ≠ [] ∧ ∀ c ∈ f, isEscapeChar c = false
  | .esc c => isEscapeChar c = true


/-- C1: the round-trip guarantee fails.  The struct `Data \x7b nums: vec![1, 2, 3] \x7d`
serializes without error, but the serializer writes the field key once and
then again for the first sequence element, so the produced text has an odd
number of string tokens and parsing it fails (spec section 4.3) — decoding
cannot reproduce the value.  (`error.rs`'s own doctest expects the clean
three-line output instead.) -/
theorem roundTripFailsOnSequenceField :
    toStringVdf FormatOpts.default
      (SValue.sstruct (SFields.cons "nums".data
        (SValue.sseq (SList.cons (SValue.sint 1) (SList.cons (SValue.sint 2)
          (SList.cons (SValue.sint 3) SList.nil)))) SFields.nil))
      = Except.ok "\"nums\"\"nums\" \"1\"\n\"nums\" \"2\"\n\"nums\" \"3\"\n\n".data
    ∧ parseFlat "\"nums\"\"nums\" \"1\"\n\"nums\" \"2\"\n\"nums\" \"3\"\n\n".data
      = Except.error "missing value after key".data :=
  ⟨rfl, rfl⟩

/-- C2: an absent `Option` value is not omitted.  As a struct field the
serializer writes the key and an empty string value (`"a" ""` plus a line
break); at document root under the default options it writes the
two-character text `""`, not the empty string.  (`serialize_none` carries
the TODO "this should be represented by omitting the key", and the crate
documentation says `None` "is simply omitted".) -/
theorem absentOptionFieldIsWrittenNotOmitted :
    serValue FormatOpts.default
      (SValue.sstruct (SFields.cons "a".data SValue.snone SFields.nil)) initState
      = Except.ok ⟨"\"a\" \"\"\n".data, [], -1, []⟩
    ∧ serValue FormatOpts.default SValue.snone initState
      = Except.ok ⟨"\"\"".data, [], -1, []⟩ :=
  ⟨rfl, rfl⟩

/-- C3: under `WhenRequired` quoting the empty string is NOT quoted: the
`needQuotes` test is false on it, and writing an empty string value emits
no text at all (the repository test `tests/ser.rs::serialize_option`
expects the quoted output `""` instead). -/
theorem emptyStringNotQuotedWhenRequired :
    needQuotes Quoting.whenRequired [] = false
    ∧ toStringVdf { FormatOpts.default with quoteValues := .whenRequired }
        (SValue.sstr []) = Except.ok [] :=
  ⟨rfl, rfl⟩

/-- C4: a sequence directly inside another sequence is NOT rejected with
`NestedSequence`: serializing the field `nested: vec![vec![1]]` succeeds,
emitting the key three times (`error.rs` documents and
`tests/ser.rs::serialize_nested_sequence` expects an error; the
`NestedSequence` variant is never constructed by the serializer). -/
theorem nestedSequenceNotRejected :
    serValue FormatOpts.default
      (SValue.sstruct (SFields.cons "nested".data
        (SValue.sseq (SList.cons (SValue.sseq (SList.cons (SValue.sint 1) SList.nil))
          SList.nil)) SFields.nil)) initState
      = Except.ok ⟨"\"nested\"\"nested\"\"nested\" \"1\"\n\n\n".data, [], -1, []⟩ :=
  rfl

/-- C5: a non-empty bare sequence at document root is rejected with
`RootLevelSequence` before any text is written, but an EMPTY bare sequence
at root is accepted and produces empty output
(`tests/ser.rs::serialize_empty_collections` expects an error for it too:
the error is only raised inside `serialize_element`, which never runs). -/
theorem emptyRootSequenceAccepted :
    toStringVdf FormatOpts.default (SValue.sseq SList.nil) = Except.ok []
    ∧ toStringVdf FormatOpts.default (SValue.sseq (SList.cons (SValue.sint 1) SList.nil))
      = Except.error Error.rootLevelSequence :=
  ⟨rfl, rfl⟩

/-- C6: an empty sequence under a keyed parent does NOT produce zero
output: the enclosing `serialize_field` has already written the key, so
the key dangles with no value; and each element of a non-empty sequence
writes the key again, so a one-element sequence field emits its key twice
(the TODO block in `SerializeSeq::serialize_element` describes both
problems). -/
theorem emptySequenceFieldLeavesDanglingKey :
    serValue FormatOpts.default
      (SValue.sstruct (SFields.cons "empty".data (SValue.sseq SList.nil) SFields.nil))
      initState
      = Except.ok ⟨"\"empty\"\n".data, [], -1, []⟩
    ∧ serValue FormatOpts.default
        (SValue.sstruct (SFields.cons "k".data
          (SValue.sseq (SList.cons (SValue.sint 7) SList.nil)) SFields.nil)) initState
      = Except.ok ⟨"\"k\"\"k\" \"7\"\n\n".data, [], -1, []⟩ :=
  ⟨rfl, rfl⟩

/-- C7: serializing a float returns `NonFiniteFloat` exactly when the
value is not finite, and a finite float is written as its decimal text
through `write_string`, without error. -/
theorem nonFiniteFloatErrorIffNotFinite (opts : FormatOpts) (f : FloatRepr) (s : SerState) :
    (serValue opts (SValue.sfloat f) s = Except.error (Error.nonFiniteFloat f)
      ↔ f.finite = false)
    ∧ (f.finite = true → serValue opts (SValue.sfloat f) s
        = Except.ok (writeString opts f.repr s)) := by
  cases hf : f.finite <;> simp [serValue, hf]

/-- C8: as a map key, every string-able scalar (string, character,
boolean, integer, finite float) is accepted, while unit, none, sequences,
tuples, maps, structs, enum variants with a payload, and bytes are
rejected with `KeyMustBeAString` (with the description the source builds;
`serialize_none`'s says `bytes`). -/
theorem mapKeyScalarAcceptance (opts : FormatOpts) (s : SerState) :
    (∀ str : Str, ∃ t, serMapKey opts (SValue.sstr str) s = Except.ok t)
    ∧ (∀ c : Char, ∃ t, serMapKey opts (SValue.schar c) s = Except.ok t)
    ∧ (∀ b : Bool, ∃ t, serMapKey opts (SValue.sbool b) s = Except.ok t)
    ∧ (∀ n : Int, ∃ t, serMapKey opts (SValue.sint n) s = Except.ok t)
    ∧ (∀ f : FloatRepr, f.finite = true →
        ∃ t, serMapKey opts (SValue.sfloat f) s = Except.ok t)
    ∧ serMapKey opts SValue.sunit s = Except.error (Error.keyMustBeAString "unit".data)
    ∧ serMapKey opts SValue.snone s = Except.error (Error.keyMustBeAString "bytes".data)
    ∧ (∀ xs, serMapKey opts (SValue.sseq xs) s
        = Except.error (Error.keyMustBeAString "sequence".data))
    ∧ (∀ xs, serMapKey opts (SValue.stuple xs) s
        = Except.error (Error.keyMustBeAString "tuple".data))
    ∧ (∀ es, serMapKey opts (SValue.smap es) s
        = Except.error (Error.keyMustBeAString "map".data))
    ∧ (∀ fs, serMapKey opts (SValue.sstruct fs) s
        = Except.error (Error.keyMustBeAString "struct".data))
    ∧ (∀ name v, serMapKey opts (SValue.snewtypeVariant name v) s
        = Except.error (Error.keyMustBeAString "newtype variant".data))
    ∧ (∀ name xs, serMapKey opts (SValue.stupleVariant name xs) s
        = Except.error (Error.keyMustBeAString "tuple variant".data))
    ∧ (∀ name fs, serMapKey opts (SValue.sstructVariant name fs) s
        = Except.error (Error.keyMustBeAString "struct variant".data))
    ∧ serMapKey opts SValue.sbytes s = Except.error (Error.keyMustBeAString "bytes".data) := by
  exact ⟨fun str => ⟨_, rfl⟩, fun c => ⟨_, rfl⟩, fun b => ⟨_, rfl⟩, fun n => ⟨_, rfl⟩,
    fun f hf => ⟨mapKeyStr opts f.repr s, by simp [serMapKey, hf]⟩, rfl, rfl,
    fun xs => rfl, fun xs => rfl, fun es => rfl, fun fs => rfl, fun name v => rfl,
    fun name xs => rfl, fun name fs => rfl, rfl⟩

theorem escapeWrites_flatten (s : Str) :
    ((escapeWrites s).map renderWrite).flatten = s.flatMap escapeCharSpec := by
  induction s with
  | nil => simp [escapeWrites]
  | cons c rest ih =>
    by_cases h : isEscapeChar c
    · simp [escapeWrites, h, renderWrite, escapeCharSpec, ih]
    · rw [escapeWrites, if_neg (by simp [h])]
      cases hrw : escapeWrites rest with
      | nil =>
        rw [hrw] at ih
        simp [renderWrite, escapeCharSpec, h, ← ih]
      | cons w ws =>
        rw [hrw] at ih
        cases w with
        | frag f => simp [renderWrite, escapeCharSpec, h, ← ih]
        | esc e => simp [renderWrite, escapeCharSpec, h, ← ih]

theorem escapeWrites_good (s : Str) : ∀ w ∈ escapeWrites s, goodCall w := by
  induction s with
  | nil => simp [escapeWrites]
  | cons c rest ih =>
    by_cases h : isEscapeChar c
    · rw [escapeWrites, if_pos (by simp [h])]
      intro w hw
      rcases List.mem_cons.mp hw with hw | hw
      · subst hw; exact h
      · exact ih w hw
    · rw [escapeWrites, if_neg (by simp [h])]
      cases hrw : escapeWrites rest with
      | nil =>
        intro w hw
        rcases List.mem_cons.mp hw with hw | hw
        · subst hw
          exact ⟨List.cons_ne_nil c [], by intro d hd; simp at hd; subst hd; simpa using h⟩
        · simp at hw
      | cons v ws =>
        rw [hrw] at ih
        cases v with
        | frag f =>
          intro w hw
          rcases List.mem_cons.mp hw with hw | hw
          · subst hw
            have hgood := ih (.frag f) (List.mem_cons_self _ _)
            refine ⟨List.cons_ne_nil c f, ?_⟩
            intro d hd
            rcases List.mem_cons.mp hd with hd | hd
            · subst hd; simpa using h
            · exact hgood.2 d hd
          · exact ih w (List.mem_cons_of_mem _ hw)
        | esc e =>
          intro w hw
          rcases List.mem_cons.mp hw with hw | hw
          · subst hw
            exact ⟨List.cons_ne_nil c [], by intro d hd; simp at hd; subst hd; simpa using h⟩
          · exact ih w hw

theorem escapeWrites_maximal (s : Str) :
    List.Chain' (fun a b => ¬(a.isFrag = true ∧ b.isFrag = true)) (escapeWrites s) := by
  induction s with
  | nil => simp [escapeWrites]
  | cons c rest ih =>
    by_cases h : isEscapeChar c
    · rw [escapeWrites, if_pos (by simp [h])]
      refine List.chain'_cons'.mpr ⟨?_, ih⟩
      intro b _
      simp [WriteCall.isFrag]
    · rw [escapeWrites, if_neg (by simp [h])]
      cases hrw : escapeWrites rest with
      | nil => simp
      | cons v ws =>
        rw [hrw] at ih
        cases v with
        | frag f =>
          rcases List.chain'_cons'.mp ih with ⟨hhead, htail⟩
          refine List.chain'_cons'.mpr ⟨?_, htail⟩
          intro b hb
          have hr := hhead b hb
          simpa [WriteCall.isFrag] using hr
        | esc e =>
          refine List.chain'_cons'.mpr ⟨?_, ih⟩
          intro b hb
          simp only [List.head?_cons, Option.mem_def, Option.some.injEq] at hb
          subst hb
          simp [WriteCall.isFrag]

/-- C9: inside a quoted string, the writes issued by the escape loop (a)
concatenate to the text in which each tab, newline, backslash or quote is
its two-character escape and every other character passes through, (b)
consist of non-empty, escape-free raw fragments and single escape
sequences, and (c) never put two raw fragments next to each other — the
unescaped characters are copied in maximal contiguous runs. -/
theorem escapeLoopSpec (s : Str) :
    ((escapeWrites s).map renderWrite).flatten = s.flatMap escapeCharSpec
    ∧ (∀ w ∈ escapeWrites s, goodCall w)
    ∧ List.Chain' (fun a b => ¬(a.isFrag = true ∧ b.isFrag = true)) (escapeWrites s) :=
  ⟨escapeWrites_flatten s, escapeWrites_good s, escapeWrites_maximal s⟩

theorem pureLocal_pushKey (k : Str) : PureLocal (pushKey k) := by
  intro o el il ks
  simp [pushKey]

theorem pureLocal_popKeyStack : PureLocal popKeyStack := by
  intro o el il ks
  simp [popKeyStack]

theorem pureLocal_beginValue : PureLocal beginValue := by
  intro o el il ks
  simp [beginValue, pushElement]

theorem pureLocal_endKey : PureLocal endKey := by
  intro o el il ks
  cases el with
  | nil => simp [endKey, popElement]
  | cons e rest => simp [endKey, popElement]

theorem pureLocal_endValue : PureLocal endValue := by
  intro o el il ks
  cases el with
  | nil => simp [endValue, popElement, emit]
  | cons e rest =>
    cases rest with
    | nil => simp [endValue, popElement, emit]
    | cons e2 rest2 => simp [endValue, popElement, emit]

theorem pureLocal_beginKey (opts : FormatOpts) : PureLocal (beginKey opts) := by
  intro o el il ks
  simp [beginKey, pushElement, writeIndent, emit, List.append_assoc]

theorem pureLocal_writeString (opts : FormatOpts) (str : Str) :
    PureLocal (writeString opts str) := by
  intro o el il ks
  cases el with
  | nil => simp [writeString, writeStringElement, emit, List.append_assoc]
  | cons e rest =>
    cases e <;> simp [writeString, writeStringElement, emit, List.append_assoc]

theorem pureLocal_beginObject (opts : FormatOpts) : PureLocal (beginObject opts) := by
  intro o el il ks
  cases el with
  | nil => simp [beginObject, pushElement]
  | cons e rest =>
    cases hb : opts.braceStyle <;>
      simp [beginObject, hb, pushElement, writeIndent, emit, List.append_assoc]

theorem pureLocal_endObject (opts : FormatOpts) : PureLocal (endObject opts) := by
  intro o el il ks
  cases el with
  | nil => simp [endObject, popElement, writeIndent, emit, List.append_assoc]
  | cons e rest =>
    cases rest with
    | nil => simp [endObject, popElement, writeIndent, emit, List.append_assoc]
    | cons e2 rest2 => simp [endObject, popElement, writeIndent, emit, List.append_assoc]

theorem pureLocalComp {f g : SerState → SerState} (hf : PureLocal f) (hg : PureLocal g) :
    PureLocal fun s => g (f s) := by
  intro o el il ks
  show g (f ⟨o, el, il, ks⟩) =
    ⟨o ++ (g (f ⟨[], el, il, ks⟩)).out, (g (f ⟨[], el, il, ks⟩)).elements,
     (g (f ⟨[], el, il, ks⟩)).indentLevel, (g (f ⟨[], el, il, ks⟩)).keyStack⟩
  rw [hf o el il ks]
  generalize f ⟨[], el, il, ks⟩ = t
  obtain ⟨o2, el2, il2, ks2⟩ := t
  show g ⟨o ++ o2, el2, il2, ks2⟩ =
    ⟨o ++ (g ⟨o2, el2, il2, ks2⟩).out, (g ⟨o2, el2, il2, ks2⟩).elements,
     (g ⟨o2, el2, il2, ks2⟩).indentLevel, (g ⟨o2, el2, il2, ks2⟩).keyStack⟩
  rw [hg (o ++ o2) el2 il2 ks2, hg o2 el2 il2 ks2]
  simp [List.append_assoc]

theorem pureLocal_mapKeyStr (opts : FormatOpts) (str : Str) :
    PureLocal (mapKeyStr opts str) := by
  have h := pureLocalComp (pureLocalComp (pureLocalComp (pureLocal_pushKey str)
    (pureLocal_beginKey opts)) (pureLocal_writeString opts str)) pureLocal_endKey
  intro o el il ks
  exact h o el il ks

theorem exceptLocalOk {f : SerState → SerState} (hf : PureLocal f) :
    ExceptLocal fun s => Except.ok (f s) := by
  intro o el il ks
  show Except.ok (f ⟨o, el, il, ks⟩) = _
  rw [hf o el il ks]
  rfl

theorem exceptLocalErr (e : Error) : ExceptLocal fun _ => Except.error e := by
  intro o el il ks
  rfl

theorem exceptLocalCongr {F G : SerState → Except Error SerState}
    (hG : ExceptLocal G) (h : ∀ s, F s = G s) : ExceptLocal F := by
  intro o el il ks
  rw [h, h]
  exact hG o el il ks

theorem exceptLocalPre {f : SerState → SerState} {F : SerState → Except Error SerState}
    (hf : PureLocal f) (hF : ExceptLocal F) : ExceptLocal fun s => F (f s) := by
  intro o el il ks
  show F (f ⟨o, el, il, ks⟩) = (F (f ⟨[], el, il, ks⟩)).map fun t =>
    ⟨o ++ t.out, t.elements, t.indentLevel, t.keyStack⟩
  rw [hf o el il ks]
  generalize f ⟨[], el, il, ks⟩ = t
  obtain ⟨o2, el2, il2, ks2⟩ := t
  show F ⟨o ++ o2, el2, il2, ks2⟩ = (F ⟨o2, el2, il2, ks2⟩).map fun t =>
    ⟨o ++ t.out, t.elements, t.indentLevel, t.keyStack⟩
  rw [hF (o ++ o2) el2 il2 ks2, hF o2 el2 il2 ks2]
  cases F ⟨[], el2, il2, ks2⟩ with
  | error e => rfl
  | ok u =>
    obtain ⟨o3, el3, il3, ks3⟩ := u
    simp [Except.map, List.append_assoc]

theorem exceptLocalBind {F G : SerState → Except Error SerState}
    (hF : ExceptLocal F) (hG : ExceptLocal G) :
    ExceptLocal fun s => (F s).bind G := by
  intro o el il ks
  show (F ⟨o, el, il, ks⟩).bind G = ((F ⟨[], el, il, ks⟩).bind G).map fun t =>
    ⟨o ++ t.out, t.elements, t.indentLevel, t.keyStack⟩
  rw [hF o el il ks]
  cases F ⟨[], el, il, ks⟩ with
  | error e => rfl
  | ok t =>
    obtain ⟨o2, el2, il2, ks2⟩ := t
    show G ⟨o ++ o2, el2, il2, ks2⟩ = (G ⟨o2, el2, il2, ks2⟩).map fun t =>
      ⟨o ++ t.out, t.elements, t.indentLevel, t.keyStack⟩
    rw [hG (o ++ o2) el2 il2 ks2, hG o2 el2 il2 ks2]
    cases G ⟨[], el2, il2, ks2⟩ with
    | error e => rfl
    | ok u =>
      obtain ⟨o3, el3, il3, ks3⟩ := u
      simp [Except.map, List.append_assoc]

mutual
theorem serValue_local (opts : FormatOpts) (v : SValue) : ExceptLocal (serValue opts v) := by
  cases v with
  | sbool b =>
    exact exceptLocalCongr (exceptLocalOk (pureLocal_writeString opts
      (if b then "1".data else "0".data))) (fun s => rfl)
  | sint n =>
    exact exceptLocalCongr (exceptLocalOk (pureLocal_writeString opts (intToStr n)))
      (fun s => rfl)
  | sbigint d =>
    exact exceptLocalCongr (exceptLocalErr (.unsupportedType d)) (fun s => rfl)
  | sfloat f =>
    cases hf : f.finite with
    | true =>
      exact exceptLocalCongr (exceptLocalOk (pureLocal_writeString opts f.repr))
        (fun s => by simp [serValue, hf])
    | false =>
      exact exceptLocalCongr (exceptLocalErr (.nonFiniteFloat f))
        (fun s => by simp [serValue, hf])
  | sstr str =>
    exact exceptLocalCongr (exceptLocalOk (pureLocal_writeString opts str)) (fun s => rfl)
  | schar c =>
    exact exceptLocalCongr (exceptLocalOk (pureLocal_writeString opts [c])) (fun s => rfl)
  | sbytes =>
    exact exceptLocalCongr (exceptLocalErr (.unsupportedType "bytes".data)) (fun s => rfl)
  | snone =>
    exact exceptLocalCongr (exceptLocalOk (pureLocal_writeString opts [])) (fun s => rfl)
  | ssome v =>
    exact exceptLocalCongr (serValue_local opts v) (fun s => rfl)
  | sunit =>
    exact exceptLocalCongr (exceptLocalOk (pureLocal_writeString opts [])) (fun s => rfl)
  | sunitStruct =>
    exact exceptLocalCongr (exceptLocalOk (pureLocal_writeString opts [])) (fun s => rfl)
  | sunitVariant name =>
    exact exceptLocalCongr (exceptLocalOk (pureLocal_writeString opts name)) (fun s => rfl)
  | snewtypeStruct v =>
    exact exceptLocalCongr (serValue_local opts v) (fun s => rfl)
  | snewtypeVariant name v =>
    exact exceptLocalCongr
      (exceptLocalPre
        (pureLocalComp (pureLocalComp (pureLocalComp (pureLocalComp
          (pureLocal_beginObject opts) (pureLocal_pushKey name))
          (pureLocal_beginKey opts)) (pureLocal_writeString opts name))
          (pureLocalComp pureLocal_endKey pureLocal_beginValue))
        (exceptLocalBind (serValue_local opts v)
          (exceptLocalOk (pureLocalComp (pureLocalComp pureLocal_endValue
            pureLocal_popKeyStack) (pureLocal_endObject opts)))))
      (fun s => rfl)
  | sseq xs =>
    exact exceptLocalCongr (serSeqElems_local opts xs) (fun s => rfl)
  | stuple xs =>
    exact exceptLocalCongr (serSeqElems_local opts xs) (fun s => rfl)
  | stupleVariant name xs =>
    exact exceptLocalCongr
      (exceptLocalPre (pureLocalComp (pureLocal_pushKey name) (pureLocal_beginObject opts))
        (exceptLocalBind (serSeqElems_local opts xs)
          (exceptLocalOk (pureLocalComp (pureLocal_endObject opts) pureLocal_popKeyStack))))
      (fun s => rfl)
  | smap entries =>
    exact exceptLocalCongr
      (exceptLocalPre (pureLocal_beginObject opts)
        (exceptLocalBind (serMapEntries_local opts entries)
          (exceptLocalOk (pureLocal_endObject opts))))
      (fun s => rfl)
  | sstruct fields =>
    exact exceptLocalCongr
      (exceptLocalPre (pureLocal_beginObject opts)
        (exceptLocalBind (serStructFields_local opts fields)
          (exceptLocalOk (pureLocal_endObject opts))))
      (fun s => rfl)
  | sstructVariant name fields =>
    exact exceptLocalCongr
      (exceptLocalPre
        (pureLocalComp (pureLocalComp (pureLocalComp (pureLocalComp (pureLocalComp
          (pureLocal_beginObject opts) (pureLocal_pushKey name))
          (pureLocal_beginKey opts)) (pureLocal_writeString opts name))
          (pureLocalComp pureLocal_endKey pureLocal_beginValue))
          (pureLocal_beginObject opts))
        (exceptLocalBind (serStructFields_local opts fields)
          (exceptLocalOk (pureLocalComp (pureLocalComp (pureLocalComp
            (pureLocal_endObject opts) pureLocal_endValue)
            pureLocal_popKeyStack) (pureLocal_endObject opts)))))
      (fun s => rfl)

theorem serSeqElems_local (opts : FormatOpts) (xs : SList) :
    ExceptLocal (serSeqElems opts xs) := by
  cases xs with
  | nil =>
    intro o el il ks
    show Except.ok (⟨o, el, il, ks⟩ : SerState) =
      (Except.ok (⟨[], el, il, ks⟩ : SerState)).map fun t =>
        ⟨o ++ t.out, t.elements, t.indentLevel, t.keyStack⟩
    simp [Except.map]
  | cons x rest =>
    intro o el il ks
    cases ks with
    | nil => rfl
    | cons key ks2 =>
      have hbody : ExceptLocal fun s =>
          (serValue opts x (beginValue (endKey (writeString opts key (beginKey opts s))))).bind
            fun t => serSeqElems opts rest (endValue t) :=
        exceptLocalPre
          (pureLocalComp (pureLocalComp (pureLocal_beginKey opts)
            (pureLocal_writeString opts key))
            (pureLocalComp pureLocal_endKey pureLocal_beginValue))
          (exceptLocalBind (serValue_local opts x)
            (exceptLocalPre pureLocal_endValue (serSeqElems_local opts rest)))
      exact hbody o el il (key :: ks2)

theorem serMapEntries_local (opts : FormatOpts) (ps : SPairs) :
    ExceptLocal (serMapEntries opts ps) := by
  cases ps with
  | nil =>
    intro o el il ks
    show Except.ok (⟨o, el, il, ks⟩ : SerState) =
      (Except.ok (⟨[], el, il, ks⟩ : SerState)).map fun t =>
        ⟨o ++ t.out, t.elements, t.indentLevel, t.keyStack⟩
    simp [Except.map]
  | cons k v rest =>
    exact exceptLocalCongr
      (exceptLocalBind (serMapKey_local opts k)
        (exceptLocalPre pureLocal_beginValue
          (exceptLocalBind (serValue_local opts v)
            (exceptLocalPre (pureLocalComp pureLocal_endValue pureLocal_popKeyStack)
              (serMapEntries_local opts rest)))))
      (fun s => rfl)

theorem serMapKey_local (opts : FormatOpts) (v : SValue) : ExceptLocal (serMapKey opts v) := by
  cases v with
  | sbool b =>
    exact exceptLocalCongr (exceptLocalOk (pureLocal_mapKeyStr opts
      (if b then "1".data else "0".data))) (fun s => rfl)
  | sint n =>
    exact exceptLocalCongr (exceptLocalOk (pureLocal_mapKeyStr opts (intToStr n)))
      (fun s => rfl)
  | sbigint d =>
    exact exceptLocalCongr (exceptLocalErr (.unsupportedType d)) (fun s => rfl)
  | sfloat f =>
    cases hf : f.finite with
    | true =>
      exact exceptLocalCongr (exceptLocalOk (pureLocal_mapKeyStr opts f.repr))
        (fun s => by simp [serMapKey, hf])
    | false =>
      exact exceptLocalCongr (exceptLocalErr (.nonFiniteFloat f))
        (fun s => by simp [serMapKey, hf])
  | sstr str =>
    exact exceptLocalCongr (exceptLocalOk (pureLocal_mapKeyStr opts str)) (fun s => rfl)
  | schar c =>
    exact exceptLocalCongr (exceptLocalOk (pureLocal_mapKeyStr opts [c])) (fun s => rfl)
  | sbytes =>
    exact exceptLocalCongr (exceptLocalErr (.keyMustBeAString "bytes".data)) (fun s => rfl)
  | snone =>
    exact exceptLocalCongr (exceptLocalErr (.keyMustBeAString "bytes".data)) (fun s => rfl)
  | ssome v =>
    exact exceptLocalCongr (serMapKey_local opts v) (fun s => rfl)
  | sunit =>
    exact exceptLocalCongr (exceptLocalErr (.keyMustBeAString "unit".data)) (fun s => rfl)
  | sunitStruct =>
    exact exceptLocalCongr (exceptLocalErr (.keyMustBeAString "unit struct".data))
      (fun s => rfl)
  | sunitVariant name =>
    exact exceptLocalCongr (exceptLocalErr (.keyMustBeAString "unit variant".data))
      (fun s => rfl)
  | snewtypeStruct v =>
    exact exceptLocalCongr (serMapKey_local opts v) (fun s => rfl)
  | snewtypeVariant name v =>
    exact exceptLocalCongr (exceptLocalErr (.keyMustBeAString "newtype variant".data))
      (fun s => rfl)
  | sseq xs =>
    exact exceptLocalCongr (exceptLocalErr (.keyMustBeAString "sequence".data)) (fun s => rfl)
  | stuple xs =>
    exact exceptLocalCongr (exceptLocalErr (.keyMustBeAString "tuple".data)) (fun s => rfl)
  | stupleVariant name xs =>
    exact exceptLocalCongr (exceptLocalErr (.keyMustBeAString "tuple variant".data))
      (fun s => rfl)
  | smap es =>
    exact exceptLocalCongr (exceptLocalErr (.keyMustBeAString "map".data)) (fun s => rfl)
  | sstruct fs =>
    exact exceptLocalCongr (exceptLocalErr (.keyMustBeAString "struct".data)) (fun s => rfl)
  | sstructVariant name fs =>
    exact exceptLocalCongr (exceptLocalErr (.keyMustBeAString "struct variant".data))
      (fun s => rfl)

theorem serStructFields_local (opts : FormatOpts) (fs : SFields) :
    ExceptLocal (serStructFields opts fs) := by
  cases fs with
  | nil =>
    intro o el il ks
    show Except.ok (⟨o, el, il, ks⟩ : SerState) =
      (Except.ok (⟨[], el, il, ks⟩ : SerState)).map fun t =>
        ⟨o ++ t.out, t.elements, t.indentLevel, t.keyStack⟩
    simp [Except.map]
  | cons key v rest =>
    exact exceptLocalCongr
      (exceptLocalPre
        (pureLocalComp (pureLocalComp (pureLocalComp (pureLocal_pushKey key)
          (pureLocal_beginKey opts)) (pureLocal_writeString opts key))
          (pureLocalComp pureLocal_endKey pureLocal_beginValue))
        (exceptLocalBind (serValue_local opts v)
          (exceptLocalPre (pureLocalComp pureLocal_endValue pureLocal_popKeyStack)
            (serStructFields_local opts rest))))
      (fun s => rfl)
end

/-- C10: encoding is deterministic and shares no state through the writer:
for every value, option set and starting state, the serializer's result
equals the result of the same run over an emptied writer with the prior
writer contents prepended — the emitted bytes, the final formatter and key
stacks, and any error depend only on the value, the options and the
non-writer state.  Two runs from fresh `Serializer::new` /
`PrettyFormatter::with_opts` instances start from equal states, so they
produce byte-identical output. -/
theorem outputDependsOnlyOnValueAndOpts (opts : FormatOpts) (v : SValue) (s : SerState) :
    serValue opts v s
      = (serValue opts v { s with out := [] }).map fun t => { t with out := s.out ++ t.out } := by
  obtain ⟨o, el, il, ks⟩ := s
  exact serValue_local opts v o el il ks
